import Mathlib

/-!
# tidytrello: stale-board audit

A shallow embedding of `tidytrello.go` and the properties of its
filter-and-enrich pipeline.

* Go strings are Lean `String`s, slices are `List`s.
* A `time.Time` is the instant it denotes, an `Int` number of nanoseconds
  since the Unix epoch; `t.After(u)` is `u < t`.
* A panic is `Except.error`; standard output is the list of the strings
  written so far, oldest first, which is kept when the program panics.
* The remote API is a function of the request URL (`World`): within one run
  the same URL receives the same response.
-/

namespace TidyTrello

/-! ## Data model (tidytrello.go, lines 18-36) -/

structure BoardPrefs where
  PermissionLevel : String
  deriving DecidableEq, Repr

structure Board where
  Id : String
  Url : String
  Closed : Bool
  Prefs : BoardPrefs
  deriving DecidableEq, Repr

/-- The field `Type` of the source is `Type_` here (`Type` is reserved). -/
structure BoardAction where
  Date : String
  Type_ : String
  deriving DecidableEq, Repr

structure BoardMember where
  Username : String
  deriving DecidableEq, Repr

/-- An instant, in nanoseconds since 1970-01-01T00:00:00Z. -/
abbrev Time := Int

/-! ## The standard library's `time.Parse`, for the one layout in use

`timeFormat` is `2006-01-02T15:04:05.999Z`: a four-digit year, two-digit
month and day, an hour of one or two digits, two-digit minute and second, an
optional fractional second, and the literal `Z`.  The functions below follow
the library's `parse` chunk by chunk for this layout, as in recent Go
releases: the fraction may start with a period or a comma and may have any
number of digits.  The result is in UTC, the layout having no zone. -/

def timeFormat : String := "2006-01-02T15:04:05.999Z"

/-- The library's `isDigit(s, 0)`. -/
def isDigitChar (c : Char) : Bool := '0' ≤ c && c ≤ '9'

def digitVal (c : Char) : Nat := c.toNat - '0'.toNat

/-- The library's `getnum`: one or two leading digits (exactly two when `fixed`). -/
def getnum (s : List Char) (fixed : Bool) : Option (Nat × List Char) :=
  match s with
  | [] => none
  | c0 :: rest0 =>
    if !isDigitChar c0 then none
    else
      match rest0 with
      | [] => if fixed then none else some (digitVal c0, rest0)
      | c1 :: rest1 =>
        if !isDigitChar c1 then
          (if fixed then none else some (digitVal c0, rest0))
        else some (digitVal c0 * 10 + digitVal c1, rest1)

/-- The library's `skip` for a one-character literal of the layout. -/
def skipChar (s : List Char) (c : Char) : Option (List Char) :=
  match s with
  | [] => none
  | d :: rest => if d = c then some rest else none

/-- The `stdLongYear` chunk: four characters, all digits. -/
def getYear (s : List Char) : Option (Nat × List Char) :=
  match s with
  | a :: b :: c :: d :: rest =>
    if isDigitChar a && isDigitChar b && isDigitChar c && isDigitChar d then
      some (digitVal a * 1000 + digitVal b * 100 + digitVal c * 10 + digitVal d, rest)
    else none
  | _ => none

def commaOrPeriod (c : Char) : Bool := c = '.' || c = ','

/-- Value of a run of decimal digits, most significant first. -/
def digitsVal (ds : List Char) : Nat := ds.foldl (fun acc c => acc * 10 + digitVal c) 0

/-- The `stdFracSecond9` chunk: when the value continues with a period or
comma and a digit, all the digits that follow are taken (the first nine
count) and scaled to nanoseconds; otherwise the fraction is omitted. -/
def getFrac (s : List Char) : Nat × List Char :=
  match s with
  | p :: d :: rest =>
    if commaOrPeriod p && isDigitChar d then
      let digits := (d :: rest).takeWhile isDigitChar
      let kept := digits.take 9
      (digitsVal kept * 10 ^ (9 - kept.length), (d :: rest).dropWhile isDigitChar)
    else (0, s)
  | _ => (0, s)

def isLeap (year : Nat) : Bool := year % 4 = 0 && (year % 100 ≠ 0 || year % 400 = 0)

/-- The library's `daysIn`. -/
def daysIn (month year : Nat) : Nat :=
  if month = 2 then (if isLeap year then 29 else 28)
  else if month = 4 || month = 6 || month = 9 || month = 11 then 30
  else 31

/-- Days from 1970-01-01 to the given date of the proleptic Gregorian calendar. -/
def daysFromCivil (year month day : Nat) : Int :=
  let y : Int := if month ≤ 2 then (year : Int) - 1 else year
  let era : Int := y / 400
  let yoe : Int := y - era * 400
  let mp : Int := if month ≤ 2 then (month : Int) + 9 else (month : Int) - 3
  let doy : Int := (153 * mp + 2) / 5 + (day : Int) - 1
  let doe : Int := yoe * 365 + yoe / 4 - yoe / 100 + doy
  era * 146097 + doe - 719468

/-- The library's `Date(year, month, day, hour, min, sec, nsec, UTC)` as an instant. -/
def dateUTC (year month day hour min sec nsec : Nat) : Time :=
  ((daysFromCivil year month day * 86400 + hour * 3600 + min * 60 + sec) * 1000000000 + nsec)

/-- The call `time.Parse(timeFormat, s)`: `none` is a parse error. -/
def timeParse (value : String) : Option Time :=
  match getYear value.toList with
  | none => none
  | some (year, v1) =>
  match skipChar v1 '-' with
  | none => none
  | some v2 =>
  match getnum v2 true with
  | none => none
  | some (month, v3) =>
  if month = 0 || 12 < month then none else
  match skipChar v3 '-' with
  | none => none
  | some v4 =>
  match getnum v4 true with
  | none => none
  | some (day, v5) =>
  match skipChar v5 'T' with
  | none => none
  | some v6 =>
  match getnum v6 false with
  | none => none
  | some (hour, v7) =>
  if 24 ≤ hour then none else
  match skipChar v7 ':' with
  | none => none
  | some v8 =>
  match getnum v8 true with
  | none => none
  | some (min, v9) =>
  if 60 ≤ min then none else
  match skipChar v9 ':' with
  | none => none
  | some v10 =>
  match getnum v10 true with
  | none => none
  | some (sec, v11) =>
  if 60 ≤ sec then none else
  match getFrac v11 with
  | (nsec, v12) =>
  match skipChar v12 'Z' with
  | none => none
  | some v13 =>
  if !v13.isEmpty then none
  else if day < 1 || daysIn month year < day then none
  else some (dateUTC year month day hour min sec nsec)

/-- The call `mustTimeParse(s)` (lines 55-61). -/
def mustTimeParse (s : String) : Except String Time :=
  match timeParse s with
  | none => .error ("Could not parse " ++ s)
  | some t => .ok t

/-! ## Process environment and package-level variables (lines 38-53) -/

/-- What the process reads from its surroundings at start-up. -/
structure Env where
  getenv : String → String
  now : Time

def mustGetenv (env : Env) (k : String) : Except String String :=
  let v := env.getenv k
  if v = "" then .error ("Missing " ++ k) else .ok v

/-- The duration `2160h` in nanoseconds. -/
def threeMonths : Int := 2160 * 3600 * 1000000000

/-- The package-level variables, once initialised. -/
structure Globals where
  trelloKey : String
  trelloToken : String
  trelloOrg : String
  threeMonthsAgo : Time

/-- Package initialisation, in declaration order. -/
def initGlobals (env : Env) : Except String Globals :=
  match mustGetenv env "KEY" with
  | .error e => .error e
  | .ok key =>
  match mustGetenv env "TOKEN" with
  | .error e => .error e
  | .ok token =>
  match mustGetenv env "ORG" with
  | .error e => .error e
  | .ok org =>
    .ok { trelloKey := key, trelloToken := token, trelloOrg := org,
          threeMonthsAgo := env.now + (-threeMonths) }

/-! ## The remote API and `mustGetTrello` (lines 63-75) -/

/-- The remote service: for a request URL, the outcome of `http.Get` followed
by decoding the JSON body into a slice of the requested element type.  An
`error` is a transport error or a body that does not decode. -/
structure World where
  getBoards : String → Except String (List Board)
  getActions : String → Except String (List BoardAction)
  getMembers : String → Except String (List BoardMember)

/-- Standard output: the strings written so far, oldest first. -/
abbrev Stdout := List String

/-- The request URL built by `mustGetTrello`. -/
def requestUrl (g : Globals) (r : String) : String :=
  "https://api.trello.com/1/" ++ r ++ "?key=" ++ g.trelloKey ++ "&token=" ++ g.trelloToken

/-- The call `mustGetTrello(r, &v)`: prints the progress marker, then performs
the request; `get` is the remote's answer for the element type of `v`. -/
def mustGetTrello {α : Type} (g : Globals) (get : String → Except String α) (r : String)
    (out : Stdout) : Except String α × Stdout :=
  let out1 := out ++ ["."]
  match get (requestUrl g r) with
  | .error e => (.error e, out1)
  | .ok v => (.ok v, out1)

/-! ## `main` (lines 77-120) -/

/-- Lines 83-88: the loop collecting the open, org-visible boards. -/
def openBoardsLoop : List Board → List Board → List Board
  | [], openBoards => openBoards
  | board :: rest, openBoards =>
    if !board.Closed && board.Prefs.PermissionLevel == "org" then
      openBoardsLoop rest (openBoards ++ [board])
    else openBoardsLoop rest openBoards

/-- Lines 96-101: the loop selecting the first action that is neither
`makeAdminOfBoard` nor `addMemberToBoard`; `lastAction` keeps its initial
value when there is none. -/
def lastActionLoop : List BoardAction → BoardAction → BoardAction
  | [], lastAction => lastAction
  | action :: rest, lastAction =>
    if action.Type_ != "makeAdminOfBoard" && action.Type_ != "addMemberToBoard" then action
    else lastActionLoop rest lastAction

/-- Lines 95-102: the staleness test on an action history; `error` is the
panic of `mustTimeParse`.  The `||` of line 102 evaluates its right operand
only when the date is not empty. -/
def isStale (g : Globals) (actions : List BoardAction) : Except String Bool :=
  let lastAction := lastActionLoop actions { Date := "", Type_ := "" }
  if lastAction.Date == "" then .ok true
  else
    match mustTimeParse lastAction.Date with
    | .error e => .error e
    | .ok t => .ok (decide (t < g.threeMonthsAgo))

/-- Lines 92-105: the loop collecting the stale boards. -/
def staleBoardsLoop (w : World) (g : Globals) :
    List Board → List Board → Stdout → Except String (List Board) × Stdout
  | [], staleBoards, out => (.ok staleBoards, out)
  | board :: rest, staleBoards, out =>
    match mustGetTrello g w.getActions ("boards/" ++ board.Id ++ "/actions") out with
    | (.error e, out1) => (.error e, out1)
    | (.ok actions, out1) =>
      match isStale g actions with
      | .error e => (.error e, out1)
      | .ok true => staleBoardsLoop w g rest (staleBoards ++ [board]) out1
      | .ok false => staleBoardsLoop w g rest staleBoards out1

/-- Lines 114-117: the loop collecting the usernames. -/
def usernamesLoop : List BoardMember → List String → List String
  | [], usernames => usernames
  | member :: rest, usernames => usernamesLoop rest (usernames ++ [member.Username])

/-- The standard library's `strings.Join`. -/
def stringsJoin (elems : List String) (sep : String) : String :=
  match elems with
  | [] => ""
  | first :: rest => rest.foldl (fun b s => b ++ sep ++ s) first

/-- Line 118: the string written by `fmt.Printf("%s  (%s)\n", ...)`. -/
def reportLine (board : Board) (usernames : List String) : String :=
  board.Url ++ "  (" ++ stringsJoin usernames ", " ++ ")\n"

/-- Lines 111-119: the loop printing the stale boards. -/
def printLoop (w : World) (g : Globals) : List Board → Stdout → Except String Unit × Stdout
  | [], out => (.ok (), out)
  | board :: rest, out =>
    match mustGetTrello g w.getMembers ("boards/" ++ board.Id ++ "/members") out with
    | (.error e, out1) => (.error e, out1)
    | (.ok members, out1) =>
      let usernames := usernamesLoop members []
      printLoop w g rest (out1 ++ [reportLine board usernames])

/-- Lines 78-105: the value of `staleBoards` after the second loop. -/
def staleBoards (w : World) (g : Globals) (out : Stdout) :
    Except String (List Board) × Stdout :=
  match mustGetTrello g w.getBoards ("organizations/" ++ g.trelloOrg ++ "/boards") out with
  | (.error e, out1) => (.error e, out1)
  | (.ok boards, out1) =>
    let openBoards := openBoardsLoop boards []
    staleBoardsLoop w g openBoards [] out1

/-- The function `main`. -/
def main (w : World) (g : Globals) (out : Stdout) : Except String Unit × Stdout :=
  match staleBoards w g out with
  | (.error e, out1) => (.error e, out1)
  | (.ok stale, out1) =>
    let out2 := out1 ++ ["\n"]
    printLoop w g stale out2

/-- The whole process: package initialisation, then `main`. -/
def run (env : Env) (w : World) : Except String Unit × Stdout :=
  match initGlobals env with
  | .error e => (.error e, [])
  | .ok g => main w g []

/-! ## Vocabulary of the specification -/

/-- The visibility filter: open and visible to the organisation. -/
def visible (b : Board) : Bool := b.Closed = false && b.Prefs.PermissionLevel = "org"

/-- An action that is not membership bookkeeping. -/
def substantive (a : BoardAction) : Bool :=
  a.Type_ ≠ "makeAdminOfBoard" && a.Type_ ≠ "addMemberToBoard"

def boardsUrl (g : Globals) : String :=
  requestUrl g ("organizations/" ++ g.trelloOrg ++ "/boards")

def actionsUrl (g : Globals) (b : Board) : String :=
  requestUrl g ("boards/" ++ b.Id ++ "/actions")

def membersUrl (g : Globals) (b : Board) : String :=
  requestUrl g ("boards/" ++ b.Id ++ "/members")

/-- Outcome of the second loop's body for one board: the actions call
followed by the staleness test. -/
def classify (w : World) (g : Globals) (b : Board) : Except String Bool :=
  match w.getActions (actionsUrl g b) with
  | .error e => .error e
  | .ok actions => isStale g actions

/-- The staleness test of the second loop holds for the board: its actions
call succeeds and the test on the history returns true. -/
def isStaleBoard (w : World) (g : Globals) (b : Board) : Bool :=
  match classify w g b with
  | .ok true => true
  | _ => false

/-- The member list the remote returns for a board (empty when the call fails). -/
def membersOf (w : World) (g : Globals) (b : Board) : List BoardMember :=
  match w.getMembers (membersUrl g b) with
  | .error _ => []
  | .ok members => members

/-- The two writes of one iteration of the printing loop: the progress marker
of the members call, then the report line. -/
def reportWrites (w : World) (g : Globals) (b : Board) : List String :=
  [".", reportLine b ((membersOf w g b).map fun m => m.Username)]

/-! ## A sample organisation

The clock reads 2013-08-01T00:00:00Z, so the cutoff is 2013-05-03T00:00:00Z. -/

def sampleEnv : Env where
  getenv := fun k =>
    if k = "KEY" then "k" else if k = "TOKEN" then "t" else if k = "ORG" then "acme" else ""
  now := 1375315200000000000

def sampleGlobals : Globals where
  trelloKey := "k"
  trelloToken := "t"
  trelloOrg := "acme"
  threeMonthsAgo := 1367539200000000000

def boardA : Board := ⟨"a", "https://trello.com/b/a", false, ⟨"org"⟩⟩
def boardB : Board := ⟨"b", "https://trello.com/b/b", false, ⟨"org"⟩⟩
def boardC : Board := ⟨"c", "https://trello.com/b/c", true, ⟨"org"⟩⟩
def boardD : Board := ⟨"d", "https://trello.com/b/d", false, ⟨"org"⟩⟩
def boardE : Board := ⟨"e", "https://trello.com/b/e", false, ⟨"private"⟩⟩
def boardF : Board := ⟨"f", "https://trello.com/b/f", false, ⟨"org"⟩⟩

/-- Board A was last used 120 days ago, B 10 days ago; C is closed and E
private, both with old histories; D has a single `addMemberToBoard` dated
yesterday; F was last used exactly at the cutoff. -/
def sampleWorld : World where
  getBoards := fun url =>
    if url = "https://api.trello.com/1/organizations/acme/boards?key=k&token=t" then
      .ok [boardA, boardB, boardC, boardD, boardE, boardF]
    else .error "404"
  getActions := fun url =>
    if url = "https://api.trello.com/1/boards/a/actions?key=k&token=t" then
      .ok [⟨"2013-04-03T12:00:00.000Z", "updateCard"⟩, ⟨"2013-01-15T08:30:00.000Z", "createBoard"⟩]
    else if url = "https://api.trello.com/1/boards/b/actions?key=k&token=t" then
      .ok [⟨"2013-07-22T09:30:00.000Z", "createCard"⟩]
    else if url = "https://api.trello.com/1/boards/c/actions?key=k&token=t" then
      .ok [⟨"2012-01-01T00:00:00.000Z", "createBoard"⟩]
    else if url = "https://api.trello.com/1/boards/d/actions?key=k&token=t" then
      .ok [⟨"2013-07-31T08:00:00.000Z", "addMemberToBoard"⟩]
    else if url = "https://api.trello.com/1/boards/e/actions?key=k&token=t" then
      .ok [⟨"2012-01-01T00:00:00.000Z", "createBoard"⟩]
    else if url = "https://api.trello.com/1/boards/f/actions?key=k&token=t" then
      .ok [⟨"2013-07-30T00:00:00.000Z", "makeAdminOfBoard"⟩,
           ⟨"2013-05-03T00:00:00.000Z", "commentCard"⟩]
    else .error "404"
  getMembers := fun url =>
    if url = "https://api.trello.com/1/boards/a/members?key=k&token=t" then
      .ok [⟨"zoe"⟩, ⟨"alice"⟩, ⟨"zoe"⟩]
    else if url = "https://api.trello.com/1/boards/d/members?key=k&token=t" then
      .ok []
    else .error "404"

/-- The world with every history stripped of its `makeAdminOfBoard` and
`addMemberToBoard` actions. -/
def stripBookkeeping (w : World) : World :=
  { w with
    getActions := fun url =>
      match w.getActions url with
      | .error e => .error e
      | .ok actions => .ok (actions.filter substantive) }

/-- The boards call or the actions call of a retained board fails. -/
def boardsOrActionsCallFails (w : World) (g : Globals) : Prop :=
  (∃ e, w.getBoards (boardsUrl g) = .error e) ∨
    ∃ boards b e, w.getBoards (boardsUrl g) = .ok boards ∧ b ∈ boards ∧ visible b = true ∧
      w.getActions (actionsUrl g b) = .error e

/-- The first two stages complete and the members call of a stale board fails. -/
def membersCallFails (w : World) (g : Globals) (out : Stdout) : Prop :=
  ∃ stale out1 b e, staleBoards w g out = (.ok stale, out1) ∧ b ∈ stale ∧
    w.getMembers (membersUrl g b) = .error e

/-! ## Further sample organisations (same clock and credentials) -/

/-- Boards A and D.  The history of A holds a bookkeeping action with a
malformed date, then a substantive action dated 120 days ago, then an action
with a malformed date; the only action of D is substantive and has an empty
date. -/
def malformedWorld : World where
  getBoards := fun url =>
    if url = "https://api.trello.com/1/organizations/acme/boards?key=k&token=t" then
      .ok [boardA, boardD]
    else .error "404"
  getActions := fun url =>
    if url = "https://api.trello.com/1/boards/a/actions?key=k&token=t" then
      .ok [⟨"yesterday", "addMemberToBoard"⟩, ⟨"2013-04-03T12:00:00.000Z", "updateCard"⟩,
           ⟨"not a date", "createBoard"⟩]
    else if url = "https://api.trello.com/1/boards/d/actions?key=k&token=t" then
      .ok [⟨"", "updateCard"⟩]
    else .error "404"
  getMembers := fun url =>
    if url = "https://api.trello.com/1/boards/a/members?key=k&token=t" then .ok [⟨"alice"⟩]
    else if url = "https://api.trello.com/1/boards/d/members?key=k&token=t" then .ok [⟨"dana"⟩]
    else .error "404"

/-- Boards A and B; the first substantive action of B has a date in another format. -/
def brokenWorld : World where
  getBoards := fun url =>
    if url = "https://api.trello.com/1/organizations/acme/boards?key=k&token=t" then
      .ok [boardA, boardB]
    else .error "404"
  getActions := fun url =>
    if url = "https://api.trello.com/1/boards/a/actions?key=k&token=t" then
      .ok [⟨"2013-04-03T12:00:00.000Z", "updateCard"⟩]
    else if url = "https://api.trello.com/1/boards/b/actions?key=k&token=t" then
      .ok [⟨"2013-07-31T08:00:00.000Z", "addMemberToBoard"⟩, ⟨"07/22/2013", "createCard"⟩]
    else .error "404"
  getMembers := fun url =>
    if url = "https://api.trello.com/1/boards/a/members?key=k&token=t" then .ok [⟨"alice"⟩]
    else .error "404"

/-- Boards A and D, both stale; the members call of D, the second one, fails. -/
def flakyWorld : World where
  getBoards := fun url =>
    if url = "https://api.trello.com/1/organizations/acme/boards?key=k&token=t" then
      .ok [boardA, boardD]
    else .error "404"
  getActions := fun url =>
    if url = "https://api.trello.com/1/boards/a/actions?key=k&token=t" then
      .ok [⟨"2013-04-03T12:00:00.000Z", "updateCard"⟩]
    else if url = "https://api.trello.com/1/boards/d/actions?key=k&token=t" then
      .ok [⟨"2013-07-31T08:00:00.000Z", "addMemberToBoard"⟩]
    else .error "404"
  getMembers := fun url =>
    if url = "https://api.trello.com/1/boards/a/members?key=k&token=t" then
      .ok [⟨"zoe"⟩, ⟨"alice"⟩]
    else .error "connection reset"

/-- The boards call lists board D twice. -/
def duplicateWorld : World where
  getBoards := fun url =>
    if url = "https://api.trello.com/1/organizations/acme/boards?key=k&token=t" then
      .ok [boardD, boardD]
    else .error "404"
  getActions := fun url =>
    if url = "https://api.trello.com/1/boards/d/actions?key=k&token=t" then
      .ok [⟨"2013-07-31T08:00:00.000Z", "addMemberToBoard"⟩]
    else .error "404"
  getMembers := fun url =>
    if url = "https://api.trello.com/1/boards/d/members?key=k&token=t" then .ok [⟨"dana"⟩]
    else .error "404"

/-- Boards D and B; the first substantive action of D has an empty date and is
followed by a substantive action dated two days ago. -/
def undatedWorld : World where
  getBoards := fun url =>
    if url = "https://api.trello.com/1/organizations/acme/boards?key=k&token=t" then
      .ok [boardD, boardB]
    else .error "404"
  getActions := fun url =>
    if url = "https://api.trello.com/1/boards/d/actions?key=k&token=t" then
      .ok [⟨"2013-07-31T08:00:00.000Z", "addMemberToBoard"⟩, ⟨"", "updateCard"⟩,
           ⟨"2013-07-30T00:00:00.000Z", "createCard"⟩]
    else if url = "https://api.trello.com/1/boards/b/actions?key=k&token=t" then
      .ok [⟨"2013-07-22T09:30:00.000Z", "createCard"⟩]
    else .error "404"
  getMembers := fun url =>
    if url = "https://api.trello.com/1/boards/d/members?key=k&token=t" then .ok [⟨"dana"⟩]
    else .error "404"

/-- One open, org-visible board, A, with an empty action history and the
single member alice. -/
def singleWorld : World where
  getBoards := fun url =>
    if url = "https://api.trello.com/1/organizations/acme/boards?key=k&token=t" then
      .ok [boardA]
    else .error "404"
  getActions := fun url =>
    if url = "https://api.trello.com/1/boards/a/actions?key=k&token=t" then .ok []
    else .error "404"
  getMembers := fun url =>
    if url = "https://api.trello.com/1/boards/a/members?key=k&token=t" then .ok [⟨"alice"⟩]
    else .error "404"

/-! ## Standard output as text -/

/-- The text on standard output: the writes, concatenated. -/
def stdoutText (out : Stdout) : String := String.join out

/-- Splits characters into lines at each line break; `cur` is the line being
read, and an unterminated last line counts when it is not empty. -/
def linesFrom : List Char → List Char → List String
  | [], cur => if cur.isEmpty then [] else [String.mk cur]
  | c :: rest, cur =>
    if c = '\n' then String.mk cur :: linesFrom rest []
    else linesFrom rest (cur ++ [c])

/-- The lines of a text. -/
def textLines (text : String) : List String := linesFrom text.toList []

/-! ## Loops as list operations -/

theorem openBoardsLoop_eq (boards acc : List Board) :
    openBoardsLoop boards acc = acc ++ boards.filter visible := by
  induction boards generalizing acc with
  | nil => simp [openBoardsLoop]
  | cons b rest ih =>
    by_cases hv : visible b = true
    · have hc : (!b.Closed && b.Prefs.PermissionLevel == "org") = true := by
        simpa [visible] using hv
      simp [openBoardsLoop, hc, hv, ih]
    · have hc : ¬ (!b.Closed && b.Prefs.PermissionLevel == "org") = true := by
        simpa [visible] using hv
      simp [openBoardsLoop, hc, hv, ih]

theorem lastActionLoop_eq (actions : List BoardAction) (d : BoardAction) :
    lastActionLoop actions d = (actions.find? substantive).getD d := by
  induction actions with
  | nil => simp [lastActionLoop]
  | cons a rest ih =>
    by_cases hs : substantive a = true
    · have hc : (a.Type_ != "makeAdminOfBoard" && a.Type_ != "addMemberToBoard") = true := by
        simpa [substantive] using hs
      simp [lastActionLoop, hc, hs, List.find?]
    · have hc : ¬ (a.Type_ != "makeAdminOfBoard" && a.Type_ != "addMemberToBoard") = true := by
        simpa [substantive] using hs
      simp [lastActionLoop, hc, hs, List.find?, ih]

theorem usernamesLoop_eq (members : List BoardMember) (acc : List String) :
    usernamesLoop members acc = acc ++ members.map (fun m => m.Username) := by
  induction members generalizing acc with
  | nil => simp [usernamesLoop]
  | cons m rest ih => simp [usernamesLoop, ih]

theorem timeParse_empty : timeParse "" = none := by rfl

theorem intercalate_go_eq (sep : String) (rest : List String) (acc : String) :
    String.intercalate.go acc sep rest = rest.foldl (fun b s => b ++ sep ++ s) acc := by
  induction rest generalizing acc with
  | nil => simp [String.intercalate.go]
  | cons a rest ih => simp [String.intercalate.go, ih]

theorem stringsJoin_eq (elems : List String) (sep : String) :
    stringsJoin elems sep = sep.intercalate elems := by
  cases elems with
  | nil => simp [stringsJoin, String.intercalate]
  | cons a rest => simp [stringsJoin, String.intercalate, intercalate_go_eq]

theorem mustGetTrello_eq {α : Type} (g : Globals) (get : String → Except String α)
    (r : String) (out : Stdout) :
    mustGetTrello g get r out = (get (requestUrl g r), out ++ ["."]) := by
  unfold mustGetTrello
  cases get (requestUrl g r) <;> rfl

/-! ## The second loop -/

theorem staleBoardsLoop_cons (w : World) (g : Globals) (b : Board) (rest acc : List Board)
    (out : Stdout) :
    staleBoardsLoop w g (b :: rest) acc out =
      match classify w g b with
      | .error e => (.error e, out ++ ["."])
      | .ok true => staleBoardsLoop w g rest (acc ++ [b]) (out ++ ["."])
      | .ok false => staleBoardsLoop w g rest acc (out ++ ["."]) := by
  rw [staleBoardsLoop, mustGetTrello_eq]
  unfold classify actionsUrl
  cases w.getActions (requestUrl g ("boards/" ++ b.Id ++ "/actions")) with
  | error e => rfl
  | ok actions =>
    simp only []

/-- The second loop either classifies every board and returns the stale ones in
order, having printed one marker per board, or stops at the first board whose
actions call or timestamp parse fails, having printed markers only. -/
theorem staleBoardsLoop_spec (w : World) (g : Globals) (bs acc : List Board) (out : Stdout) :
    ((∀ b ∈ bs, ∃ r, classify w g b = .ok r) ∧
      staleBoardsLoop w g bs acc out =
        (.ok (acc ++ bs.filter (isStaleBoard w g)), out ++ List.replicate bs.length "."))
    ∨ (∃ pre b post e, bs = pre ++ b :: post ∧ (∀ x ∈ pre, ∃ r, classify w g x = .ok r) ∧
        classify w g b = .error e ∧
        staleBoardsLoop w g bs acc out =
          (.error e, out ++ List.replicate (pre.length + 1) ".")) := by
  induction bs generalizing acc out with
  | nil => left; simp [staleBoardsLoop]
  | cons b rest ih =>
    rw [staleBoardsLoop_cons]
    cases hc : classify w g b with
    | error e =>
      right
      exact ⟨[], b, rest, e, by simp, by simp, hc, by simp⟩
    | ok r =>
      have hstep : ∀ acc1 : List Board, acc1 ++ rest.filter (isStaleBoard w g) =
          acc ++ (b :: rest).filter (isStaleBoard w g) →
          ((∀ x ∈ b :: rest, ∃ r, classify w g x = .ok r) ∧
            staleBoardsLoop w g rest acc1 (out ++ ["."]) =
              (.ok (acc ++ (b :: rest).filter (isStaleBoard w g)),
                out ++ List.replicate (b :: rest).length "."))
          ∨ (∃ pre c post e, b :: rest = pre ++ c :: post ∧
              (∀ x ∈ pre, ∃ r, classify w g x = .ok r) ∧ classify w g c = .error e ∧
              staleBoardsLoop w g rest acc1 (out ++ ["."]) =
                (.error e, out ++ List.replicate (pre.length + 1) ".")) := by
        intro acc1 hacc
        rcases ih acc1 (out ++ ["."]) with ⟨hall, hrun⟩ | ⟨pre, c, post, e, hsplit, hpre, hce, hrun⟩
        · left
          refine ⟨?_, ?_⟩
          · intro x hx
            rcases List.mem_cons.mp hx with rfl | hx
            · exact ⟨r, hc⟩
            · exact hall x hx
          · rw [hrun, hacc]
            simp [List.replicate_succ, List.append_assoc]
        · right
          refine ⟨b :: pre, c, post, e, by simp [hsplit], ?_, hce, ?_⟩
          · intro x hx
            rcases List.mem_cons.mp hx with rfl | hx
            · exact ⟨r, hc⟩
            · exact hpre x hx
          · rw [hrun]
            simp [List.replicate_succ, List.append_assoc]
      cases r with
      | true =>
        have hb : isStaleBoard w g b = true := by simp [isStaleBoard, hc]
        exact hstep (acc ++ [b]) (by simp [List.filter_cons, hb])
      | false =>
        have hb : isStaleBoard w g b = false := by simp [isStaleBoard, hc]
        exact hstep acc (by simp [List.filter_cons, hb])

/-! ## The printing loop -/

theorem printLoop_cons (w : World) (g : Globals) (b : Board) (rest : List Board)
    (out : Stdout) :
    printLoop w g (b :: rest) out =
      match w.getMembers (membersUrl g b) with
      | .error e => (.error e, out ++ ["."])
      | .ok members =>
        printLoop w g rest
          (out ++ [".", reportLine b (members.map fun m => m.Username)]) := by
  rw [printLoop, mustGetTrello_eq]
  unfold membersUrl
  cases w.getMembers (requestUrl g ("boards/" ++ b.Id ++ "/members")) with
  | error e => rfl
  | ok members => simp [usernamesLoop_eq]

/-- The printing loop either writes, for every board in order, the marker of
its members call followed by its report line, or stops at the first board whose
members call fails, having written the lines of the boards before it and the
marker of the failed call. -/
theorem printLoop_spec (w : World) (g : Globals) (bs : List Board) (out : Stdout) :
    ((∀ b ∈ bs, ∃ ms, w.getMembers (membersUrl g b) = .ok ms) ∧
      printLoop w g bs out = (.ok (), out ++ bs.flatMap (reportWrites w g)))
    ∨ (∃ pre b post e, bs = pre ++ b :: post ∧
        (∀ x ∈ pre, ∃ ms, w.getMembers (membersUrl g x) = .ok ms) ∧
        w.getMembers (membersUrl g b) = .error e ∧
        printLoop w g bs out =
          (.error e, out ++ pre.flatMap (reportWrites w g) ++ ["."])) := by
  induction bs generalizing out with
  | nil => left; simp [printLoop]
  | cons b rest ih =>
    rw [printLoop_cons]
    cases hm : w.getMembers (membersUrl g b) with
    | error e =>
      right
      exact ⟨[], b, rest, e, by simp, by simp, hm, by simp⟩
    | ok members =>
      have hw : reportWrites w g b = [".", reportLine b (members.map fun m => m.Username)] := by
        simp [reportWrites, membersOf, hm]
      rcases ih (out ++ [".", reportLine b (members.map fun m => m.Username)]) with
        ⟨hall, hrun⟩ | ⟨pre, c, post, e, hsplit, hpre, hce, hrun⟩
      · left
        refine ⟨?_, ?_⟩
        · intro x hx
          rcases List.mem_cons.mp hx with rfl | hx
          · exact ⟨members, hm⟩
          · exact hall x hx
        · simp only []
          rw [hrun]
          simp [hw, List.append_assoc]
      · right
        refine ⟨b :: pre, c, post, e, by simp [hsplit], ?_, hce, ?_⟩
        · intro x hx
          rcases List.mem_cons.mp hx with rfl | hx
          · exact ⟨members, hm⟩
          · exact hpre x hx
        · simp only []
          rw [hrun]
          simp [hw, List.append_assoc]

/-! ## The whole of `main` -/

theorem staleBoards_eq (w : World) (g : Globals) (out : Stdout) :
    staleBoards w g out =
      match w.getBoards (boardsUrl g) with
      | .error e => (.error e, out ++ ["."])
      | .ok boards => staleBoardsLoop w g (boards.filter visible) [] (out ++ ["."]) := by
  unfold staleBoards
  rw [mustGetTrello_eq]
  unfold boardsUrl
  cases w.getBoards (requestUrl g ("organizations/" ++ g.trelloOrg ++ "/boards")) with
  | error e => rfl
  | ok boards => simp [openBoardsLoop_eq]

/-- When the first two stages complete, the boards call succeeded, every
retained board was classified, `staleBoards` holds the retained boards that
pass the staleness test, in order, and only markers were printed. -/
theorem staleBoards_ok (w : World) (g : Globals) (out out1 : Stdout) (stale : List Board)
    (h : staleBoards w g out = (.ok stale, out1)) :
    ∃ boards, w.getBoards (boardsUrl g) = .ok boards ∧
      (∀ b ∈ boards.filter visible, ∃ r, classify w g b = .ok r) ∧
      stale = (boards.filter visible).filter (isStaleBoard w g) ∧
      out1 = out ++ List.replicate ((boards.filter visible).length + 1) "." := by
  rw [staleBoards_eq] at h
  cases hb : w.getBoards (boardsUrl g) with
  | error e => rw [hb] at h; simp at h
  | ok boards =>
    rw [hb] at h
    simp only [] at h
    rcases staleBoardsLoop_spec w g (boards.filter visible) [] (out ++ ["."]) with
      ⟨hall, hrun⟩ | ⟨pre, c, post, e, _, _, _, hrun⟩
    · rw [hrun] at h
      simp only [Prod.mk.injEq, Except.ok.injEq, List.nil_append] at h
      refine ⟨boards, rfl, hall, h.1.symm, ?_⟩
      rw [← h.2]
      simp [List.replicate_succ, List.append_assoc]
    · rw [hrun] at h
      simp at h

/-- When the first two stages abort, only progress markers have been printed. -/
theorem staleBoards_error (w : World) (g : Globals) (out out1 : Stdout) (e : String)
    (h : staleBoards w g out = (.error e, out1)) :
    ∃ k, out1 = out ++ List.replicate (k + 1) "." := by
  rw [staleBoards_eq] at h
  cases hb : w.getBoards (boardsUrl g) with
  | error e1 =>
    rw [hb] at h
    simp only [Prod.mk.injEq] at h
    exact ⟨0, by simp [← h.2]⟩
  | ok boards =>
    rw [hb] at h
    simp only [] at h
    rcases staleBoardsLoop_spec w g (boards.filter visible) [] (out ++ ["."]) with
      ⟨_, hrun⟩ | ⟨pre, c, post, e1, _, _, _, hrun⟩
    · rw [hrun] at h
      simp at h
    · rw [hrun] at h
      simp only [Prod.mk.injEq] at h
      refine ⟨pre.length + 1, ?_⟩
      rw [← h.2]
      simp [List.replicate_succ, List.append_assoc]

theorem main_eq (w : World) (g : Globals) (out : Stdout) :
    main w g out =
      match staleBoards w g out with
      | (.error e, out1) => (.error e, out1)
      | (.ok stale, out1) => printLoop w g stale (out1 ++ ["\n"]) := by
  rfl

/-! ## The staleness test -/

theorem isStale_none (g : Globals) (actions : List BoardAction)
    (h : actions.find? substantive = none) : isStale g actions = .ok true := by
  simp [isStale, lastActionLoop_eq, h]

theorem isStale_some (g : Globals) (actions : List BoardAction) (a : BoardAction)
    (h : actions.find? substantive = some a) :
    isStale g actions =
      if a.Date = "" then .ok true
      else
        match timeParse a.Date with
        | none => .error ("Could not parse " ++ a.Date)
        | some t => .ok (decide (t < g.threeMonthsAgo)) := by
  by_cases hd : a.Date = ""
  · simp [isStale, lastActionLoop_eq, h, hd]
  · cases hp : timeParse a.Date <;>
      simp [isStale, lastActionLoop_eq, h, hd, mustTimeParse, hp]

theorem find_filter_substantive (actions : List BoardAction) :
    (actions.filter substantive).find? substantive = actions.find? substantive := by
  induction actions with
  | nil => rfl
  | cons a rest ih =>
    by_cases hs : substantive a = true
    · simp [List.filter_cons, hs, List.find?]
    · simp [List.filter_cons, hs, List.find?, ih]

theorem isStale_filter (g : Globals) (actions : List BoardAction) :
    isStale g (actions.filter substantive) = isStale g actions := by
  simp [isStale, lastActionLoop_eq, find_filter_substantive]

theorem initGlobals_cutoff (env : Env) (g : Globals) (h : initGlobals env = .ok g) :
    g.threeMonthsAgo = env.now - threeMonths := by
  unfold initGlobals at h
  cases h1 : mustGetenv env "KEY" with
  | error e => simp [h1] at h
  | ok key =>
    cases h2 : mustGetenv env "TOKEN" with
    | error e => simp [h1, h2] at h
    | ok token =>
      cases h3 : mustGetenv env "ORG" with
      | error e => simp [h1, h2, h3] at h
      | ok org =>
        simp only [h1, h2, h3, Except.ok.injEq] at h
        rw [← h]
        simp [sub_eq_add_neg]

theorem visible_iff (b : Board) :
    visible b = true ↔ b.Closed = false ∧ b.Prefs.PermissionLevel = "org" := by
  simp [visible]

theorem reportLine_eq (b : Board) (usernames : List String) :
    reportLine b usernames = b.Url ++ "  (" ++ ", ".intercalate usernames ++ ")\n" := by
  simp [reportLine, stringsJoin_eq]

/-- When the boards call succeeds, every retained board is classified and the
members call of every stale board succeeds, `main` completes, and its output
is the markers of the first two stages, a line break, and the writes of the
stale boards in order. -/
theorem main_completes (w : World) (g : Globals) (out : Stdout) (boards : List Board)
    (hboards : w.getBoards (boardsUrl g) = .ok boards)
    (hclass : ∀ x ∈ boards.filter visible, ∃ r, classify w g x = .ok r)
    (hmembers : ∀ x ∈ (boards.filter visible).filter (isStaleBoard w g),
      ∃ ms, w.getMembers (membersUrl g x) = .ok ms) :
    staleBoards w g out =
        (.ok ((boards.filter visible).filter (isStaleBoard w g)),
          out ++ List.replicate ((boards.filter visible).length + 1) ".") ∧
      main w g out =
        (.ok (), out ++ List.replicate ((boards.filter visible).length + 1) "." ++ ["\n"] ++
          ((boards.filter visible).filter (isStaleBoard w g)).flatMap (reportWrites w g)) := by
  have hs : staleBoards w g out =
      (.ok ((boards.filter visible).filter (isStaleBoard w g)),
        out ++ List.replicate ((boards.filter visible).length + 1) ".") := by
    rw [staleBoards_eq, hboards]
    simp only []
    rcases staleBoardsLoop_spec w g (boards.filter visible) [] (out ++ ["."]) with
      ⟨_, hrun⟩ | ⟨pre, c, post, e, hsplit, _, hce, _⟩
    · rw [hrun]
      simp [List.replicate_succ, List.append_assoc]
    · obtain ⟨r, hr⟩ := hclass c (by rw [hsplit]; simp)
      rw [hr] at hce
      simp at hce
  refine ⟨hs, ?_⟩
  rw [main_eq, hs]
  simp only []
  rcases printLoop_spec w g ((boards.filter visible).filter (isStaleBoard w g))
      (out ++ List.replicate ((boards.filter visible).length + 1) "." ++ ["\n"]) with
    ⟨_, hrun⟩ | ⟨pre, c, post, e, hsplit, _, hce, _⟩
  · rw [hrun]
  · obtain ⟨ms, hms⟩ := hmembers c (by rw [hsplit]; simp)
    rw [hms] at hce
    simp at hce

/-- A history whose parse attempt, if any, succeeds is classified. -/
theorem isStale_ok_of_parse (g : Globals) (actions : List BoardAction)
    (hparse : ∀ a, actions.find? substantive = some a → a.Date ≠ "" →
      ∃ t, timeParse a.Date = some t) :
    ∃ r, isStale g actions = .ok r := by
  cases hf : actions.find? substantive with
  | none => exact ⟨true, isStale_none g actions hf⟩
  | some a =>
    rw [isStale_some g actions a hf]
    by_cases hd : a.Date = ""
    · exact ⟨true, by simp [hd]⟩
    · obtain ⟨t, ht⟩ := hparse a hf hd
      exact ⟨decide (t < g.threeMonthsAgo), by simp [hd, ht]⟩

theorem classify_stripBookkeeping (w : World) (g : Globals) (b : Board) :
    classify (stripBookkeeping w) g b = classify w g b := by
  cases h : w.getActions (actionsUrl g b) with
  | error e => simp [classify, stripBookkeeping, h]
  | ok actions => simp [classify, stripBookkeeping, h, isStale_filter]

theorem staleBoardsLoop_stripBookkeeping (w : World) (g : Globals) (bs acc : List Board)
    (out : Stdout) :
    staleBoardsLoop (stripBookkeeping w) g bs acc out = staleBoardsLoop w g bs acc out := by
  induction bs generalizing acc out with
  | nil => rfl
  | cons b rest ih =>
    rw [staleBoardsLoop_cons, staleBoardsLoop_cons, classify_stripBookkeeping]
    cases classify w g b with
    | error e => rfl
    | ok r => cases r <;> exact ih _ _

theorem printLoop_stripBookkeeping (w : World) (g : Globals) (bs : List Board) (out : Stdout) :
    printLoop (stripBookkeeping w) g bs out = printLoop w g bs out := by
  induction bs generalizing out with
  | nil => rfl
  | cons b rest ih =>
    rw [printLoop_cons, printLoop_cons]
    show (match w.getMembers (membersUrl g b) with
      | .error e => (Except.error e, out ++ ["."])
      | .ok members => printLoop (stripBookkeeping w) g rest
          (out ++ [".", reportLine b (members.map fun (m : BoardMember) => m.Username)])) = _
    cases w.getMembers (membersUrl g b) with
    | error e => rfl
    | ok members => exact ih _

theorem staleBoards_stripBookkeeping (w : World) (g : Globals) (out : Stdout) :
    staleBoards (stripBookkeeping w) g out = staleBoards w g out := by
  rw [staleBoards_eq, staleBoards_eq]
  show (match w.getBoards (boardsUrl g) with
    | .error e => (Except.error e, out ++ ["."])
    | .ok boards =>
      staleBoardsLoop (stripBookkeeping w) g (boards.filter visible) [] (out ++ ["."])) = _
  cases w.getBoards (boardsUrl g) with
  | error e => rfl
  | ok boards => exact staleBoardsLoop_stripBookkeeping w g _ _ _

theorem foldl_append_string (l : List String) (acc : String) :
    l.foldl (fun r s => r ++ s) acc = acc ++ l.foldl (fun r s => r ++ s) "" := by
  induction l generalizing acc with
  | nil => simp
  | cons a rest ih =>
    simp only [List.foldl_cons]
    rw [ih (acc ++ a), ih ("" ++ a), String.empty_append, String.append_assoc]

theorem join_append (a b : List String) :
    String.join (a ++ b) = String.join a ++ String.join b := by
  simp only [String.join, List.foldl_append]
  rw [foldl_append_string]

theorem join_cons (a : String) (l : List String) :
    String.join (a :: l) = a ++ String.join l := by
  simp only [String.join, List.foldl_cons]
  rw [foldl_append_string, String.empty_append]

theorem join_flatMap_reportWrites (w : World) (g : Globals) (bs : List Board) :
    String.join (bs.flatMap (reportWrites w g)) =
      String.join (bs.map fun b =>
        "." ++ (b.Url ++ "  (" ++
          ", ".intercalate ((membersOf w g b).map fun m => m.Username) ++ ")\n")) := by
  induction bs with
  | nil => rfl
  | cons b rest ih =>
    rw [List.flatMap_cons, join_append, ih, List.map_cons, join_cons]
    congr 1
    simp only [reportWrites, reportLine_eq, join_cons]
    have hnil : String.join [] = "" := rfl
    rw [hnil, String.append_empty]

/-! ## Properties of the report -/

/-- C1: every board in `staleBoards`, the list that is reported, is open and
visible to the organisation, whatever the remote returned for it. -/
theorem reported_boards_open_and_org (w : World) (g : Globals) (out out1 : Stdout)
    (stale : List Board) (b : Board)
    (hrun : staleBoards w g out = (.ok stale, out1)) (hb : b ∈ stale) :
    b.Closed = false ∧ b.Prefs.PermissionLevel = "org" := by
  obtain ⟨boards, _, _, hstale, _⟩ := staleBoards_ok w g out out1 stale hrun
  rw [hstale] at hb
  have hv : visible b = true := (List.mem_filter.mp (List.mem_filter.mp hb).1).2
  exact (visible_iff b).mp hv

theorem reported_boards_open_and_org_witness :
    staleBoards sampleWorld sampleGlobals [] = (.ok [boardA, boardD], [".", ".", ".", ".", "."]) ∧
      boardA.Closed = false ∧ boardA.Prefs.PermissionLevel = "org" :=
  ⟨rfl, reported_boards_open_and_org sampleWorld sampleGlobals [] [".", ".", ".", ".", "."]
    [boardA, boardD] boardA rfl (by simp)⟩

/-- C2: in a run in which every remote call succeeds and no timestamp parse
fails, `main` completes, and a retained board is in `staleBoards` and has its
report line written when its first action other than `makeAdminOfBoard` and
`addMemberToBoard` is strictly older than the cutoff (now minus 2160 hours),
when its history holds only actions of those two types, or when it is empty. -/
theorem stale_board_is_reported (env : Env) (w : World) (g : Globals) (out : Stdout)
    (boards : List Board) (b : Board) (actions : List BoardAction)
    (hinit : initGlobals env = .ok g)
    (hboards : w.getBoards (boardsUrl g) = .ok boards)
    (hactions : ∀ x ∈ boards, visible x = true → ∃ h, w.getActions (actionsUrl g x) = .ok h)
    (hparse : ∀ x ∈ boards, visible x = true → ∀ h a, w.getActions (actionsUrl g x) = .ok h →
      h.find? substantive = some a → a.Date ≠ "" → ∃ t, timeParse a.Date = some t)
    (hmembers : ∀ x ∈ boards, visible x = true → isStaleBoard w g x = true →
      ∃ ms, w.getMembers (membersUrl g x) = .ok ms)
    (hb : b ∈ boards) (hopen : b.Closed = false) (horg : b.Prefs.PermissionLevel = "org")
    (hact : w.getActions (actionsUrl g b) = .ok actions)
    (hcond : (∃ a t, actions.find? substantive = some a ∧ timeParse a.Date = some t ∧
          t < env.now - threeMonths) ∨
        (∀ a ∈ actions, a.Type_ = "makeAdminOfBoard" ∨ a.Type_ = "addMemberToBoard") ∨
        actions = []) :
    ∃ stale out1 out2, staleBoards w g out = (.ok stale, out1) ∧ b ∈ stale ∧
      main w g out = (.ok (), out2) ∧
      reportLine b ((membersOf w g b).map fun m => m.Username) ∈ out2 := by
  have hclass : ∀ x ∈ boards.filter visible, ∃ r, classify w g x = .ok r := by
    intro x hx
    obtain ⟨hxb, hxv⟩ := List.mem_filter.mp hx
    obtain ⟨h, hh⟩ := hactions x hxb hxv
    unfold classify
    rw [hh]
    exact isStale_ok_of_parse g h (fun a hf hd => hparse x hxb hxv h a hh hf hd)
  have hmem : ∀ x ∈ (boards.filter visible).filter (isStaleBoard w g),
      ∃ ms, w.getMembers (membersUrl g x) = .ok ms := by
    intro x hx
    obtain ⟨hx1, hxs⟩ := List.mem_filter.mp hx
    obtain ⟨hxb, hxv⟩ := List.mem_filter.mp hx1
    exact hmembers x hxb hxv hxs
  obtain ⟨hs, hm⟩ := main_completes w g out boards hboards hclass hmem
  have hstale : isStale g actions = .ok true := by
    rcases hcond with ⟨a, t, hf, ht, hlt⟩ | hall | hnil
    · rw [isStale_some g actions a hf, ht]
      by_cases hd : a.Date = ""
      · simp [hd]
      · have hlt2 : t < g.threeMonthsAgo := by
          rw [initGlobals_cutoff env g hinit]; exact hlt
        simp [hd, hlt2]
    · apply isStale_none
      rw [List.find?_eq_none]
      intro a ha
      rcases hall a ha with h1 | h1 <;> simp [substantive, h1]
    · rw [hnil]; rfl
  have hbs : isStaleBoard w g b = true := by
    simp [isStaleBoard, classify, hact, hstale]
  have hin : b ∈ (boards.filter visible).filter (isStaleBoard w g) :=
    List.mem_filter.mpr ⟨List.mem_filter.mpr ⟨hb, (visible_iff b).mpr ⟨hopen, horg⟩⟩, hbs⟩
  refine ⟨_, _, _, hs, hin, hm, ?_⟩
  apply List.mem_append_right
  rw [List.mem_flatMap]
  exact ⟨b, hin, by simp [reportWrites]⟩

theorem stale_board_is_reported_witness :
    sampleWorld.getActions (actionsUrl sampleGlobals boardD) =
        .ok [⟨"2013-07-31T08:00:00.000Z", "addMemberToBoard"⟩] ∧
      ∃ stale out1 out2, staleBoards sampleWorld sampleGlobals [] = (.ok stale, out1) ∧
        boardD ∈ stale ∧ main sampleWorld sampleGlobals [] = (.ok (), out2) ∧
        reportLine boardD ((membersOf sampleWorld sampleGlobals boardD).map fun m => m.Username)
          ∈ out2 :=
  ⟨rfl, stale_board_is_reported sampleEnv sampleWorld sampleGlobals []
    [boardA, boardB, boardC, boardD, boardE, boardF] boardD
    [⟨"2013-07-31T08:00:00.000Z", "addMemberToBoard"⟩] rfl rfl
    (by
      intro x hx _
      simp only [List.mem_cons, List.mem_singleton, List.not_mem_nil, or_false] at hx
      rcases hx with rfl | rfl | rfl | rfl | rfl | rfl <;> exact ⟨_, rfl⟩)
    (by
      intro x hx _ h a hh hf _
      simp only [List.mem_cons, List.mem_singleton, List.not_mem_nil, or_false] at hx
      rcases hx with rfl | rfl | rfl | rfl | rfl | rfl <;>
        (cases (Except.ok.inj hh); first
          | (cases (show some _ = some a from hf); exact ⟨_, rfl⟩)
          | exact absurd hf (by simp [substantive])))
    (by
      intro x hx hv hs
      simp only [List.mem_cons, List.mem_singleton, List.not_mem_nil, or_false] at hx
      rcases hx with rfl | rfl | rfl | rfl | rfl | rfl <;>
        first
          | exact ⟨_, rfl⟩
          | exact absurd hv (by decide)
          | exact absurd hs (by decide))
    (by simp) rfl rfl rfl
    (Or.inr (Or.inl (by intro a ha; simp at ha; subst ha; exact Or.inr rfl)))⟩

/-- C3: a board whose first action other than `makeAdminOfBoard` and
`addMemberToBoard` parses to a time at or after the cutoff (now minus 2160
hours) is classified not stale and is not in `staleBoards`; a timestamp equal
to the cutoff is such a time. -/
theorem recent_board_is_excluded (env : Env) (w : World) (g : Globals) (out : Stdout)
    (b : Board) (actions : List BoardAction) (a : BoardAction) (t : Time)
    (hinit : initGlobals env = .ok g)
    (hact : w.getActions (actionsUrl g b) = .ok actions)
    (hfind : actions.find? substantive = some a)
    (hparse : timeParse a.Date = some t)
    (hnew : env.now - threeMonths ≤ t) :
    isStale g actions = .ok false ∧
      ∀ stale out1, staleBoards w g out = (.ok stale, out1) → b ∉ stale := by
  have hd : a.Date ≠ "" := by
    intro h
    rw [h, timeParse_empty] at hparse
    exact Option.noConfusion hparse
  have hge : ¬ t < g.threeMonthsAgo := by
    rw [initGlobals_cutoff env g hinit]
    exact not_lt.mpr hnew
  have hs : isStale g actions = .ok false := by
    rw [isStale_some g actions a hfind, hparse]
    simp [hd, hge]
  refine ⟨hs, ?_⟩
  intro stale out1 hrun hb
  obtain ⟨boards, _, _, hstale, _⟩ := staleBoards_ok w g out out1 stale hrun
  rw [hstale] at hb
  have hsb : isStaleBoard w g b = true := (List.mem_filter.mp hb).2
  simp [isStaleBoard, classify, hact, hs] at hsb

theorem recent_board_is_excluded_witness :
    timeParse "2013-05-03T00:00:00.000Z" = some (sampleEnv.now - threeMonths) ∧
      isStale sampleGlobals
          [⟨"2013-07-30T00:00:00.000Z", "makeAdminOfBoard"⟩,
           ⟨"2013-05-03T00:00:00.000Z", "commentCard"⟩] = .ok false ∧
      ∀ stale out1, staleBoards sampleWorld sampleGlobals [] = (.ok stale, out1) →
        boardF ∉ stale :=
  ⟨rfl, recent_board_is_excluded sampleEnv sampleWorld sampleGlobals [] boardF
    [⟨"2013-07-30T00:00:00.000Z", "makeAdminOfBoard"⟩,
     ⟨"2013-05-03T00:00:00.000Z", "commentCard"⟩]
    ⟨"2013-05-03T00:00:00.000Z", "commentCard"⟩ 1367539200000000000 rfl rfl rfl rfl
    (by decide)⟩

/-- C4: `makeAdminOfBoard` and `addMemberToBoard` actions never count: the
staleness test gives the same outcome on a history and on the history with
every action of these two types removed, and so does the whole run when every
history is so stripped. -/
theorem bookkeeping_actions_are_skipped (w : World) (g : Globals) (out : Stdout)
    (actions : List BoardAction) :
    isStale g (actions.filter fun a =>
        a.Type_ ≠ "makeAdminOfBoard" && a.Type_ ≠ "addMemberToBoard") = isStale g actions ∧
      staleBoards (stripBookkeeping w) g out = staleBoards w g out ∧
      main (stripBookkeeping w) g out = main w g out := by
  refine ⟨isStale_filter g actions, staleBoards_stripBookkeeping w g out, ?_⟩
  rw [main_eq, main_eq, staleBoards_stripBookkeeping]
  cases hs : staleBoards w g out with
  | mk res out1 =>
    cases res with
    | error e => rfl
    | ok stale => exact printLoop_stripBookkeeping w g stale _

/-- C5, as stated, fails: the histories of the retained boards A and D hold
timestamps that do not parse (in A on a bookkeeping action and on an action
after the first substantive one, in D an empty one on the first substantive
action), yet the run completes and prints the report lines of both. -/
theorem malformed_timestamp_not_always_fatal :
    malformedWorld.getBoards (boardsUrl sampleGlobals) = .ok [boardA, boardD] ∧
      visible boardA = true ∧ visible boardD = true ∧
      malformedWorld.getActions (actionsUrl sampleGlobals boardA) =
        .ok [⟨"yesterday", "addMemberToBoard"⟩, ⟨"2013-04-03T12:00:00.000Z", "updateCard"⟩,
             ⟨"not a date", "createBoard"⟩] ∧
      malformedWorld.getActions (actionsUrl sampleGlobals boardD) = .ok [⟨"", "updateCard"⟩] ∧
      timeParse "yesterday" = none ∧ timeParse "not a date" = none ∧ timeParse "" = none ∧
      main malformedWorld sampleGlobals [] =
        (.ok (), [".", ".", ".", "\n", ".", "https://trello.com/b/a  (alice)\n",
          ".", "https://trello.com/b/d  (dana)\n"]) :=
  ⟨rfl, rfl, rfl, rfl, rfl, rfl, rfl, rfl, rfl⟩

/-- C5, amended: when the first action other than `makeAdminOfBoard` and
`addMemberToBoard` in the history of some retained board has a non-empty date
that does not parse, the run aborts having written progress markers only. -/
theorem malformed_first_timestamp_aborts (w : World) (g : Globals) (out : Stdout)
    (boards : List Board) (b : Board) (actions : List BoardAction) (a : BoardAction)
    (hboards : w.getBoards (boardsUrl g) = .ok boards)
    (hb : b ∈ boards) (hopen : b.Closed = false) (horg : b.Prefs.PermissionLevel = "org")
    (hact : w.getActions (actionsUrl g b) = .ok actions)
    (hfind : actions.find? substantive = some a)
    (hne : a.Date ≠ "") (hbad : timeParse a.Date = none) :
    ∃ e k, main w g out = (.error e, out ++ List.replicate (k + 1) ".") := by
  have hc : classify w g b = .error ("Could not parse " ++ a.Date) := by
    simp [classify, hact, isStale_some g actions a hfind, hne, hbad]
  have hin : b ∈ boards.filter visible :=
    List.mem_filter.mpr ⟨hb, (visible_iff b).mpr ⟨hopen, horg⟩⟩
  have hs : ∃ e out1, staleBoards w g out = (.error e, out1) := by
    rw [staleBoards_eq, hboards]
    simp only []
    rcases staleBoardsLoop_spec w g (boards.filter visible) [] (out ++ ["."]) with
      ⟨hall, _⟩ | ⟨pre, c, post, e, _, _, _, hrun⟩
    · obtain ⟨r, hr⟩ := hall b hin
      rw [hr] at hc
      exact Except.noConfusion hc
    · exact ⟨e, _, hrun⟩
  obtain ⟨e, out1, hrun⟩ := hs
  obtain ⟨k, hk⟩ := staleBoards_error w g out out1 e hrun
  refine ⟨e, k, ?_⟩
  rw [main_eq, hrun, hk]

theorem malformed_first_timestamp_aborts_witness :
    main brokenWorld sampleGlobals [] = (.error "Could not parse 07/22/2013", [".", ".", "."]) ∧
      ∃ e k, main brokenWorld sampleGlobals [] = (.error e, [] ++ List.replicate (k + 1) ".") :=
  ⟨rfl, malformed_first_timestamp_aborts brokenWorld sampleGlobals [] [boardA, boardB] boardB
    [⟨"2013-07-31T08:00:00.000Z", "addMemberToBoard"⟩, ⟨"07/22/2013", "createCard"⟩]
    ⟨"07/22/2013", "createCard"⟩ rfl (by simp) rfl rfl rfl rfl (by decide) rfl⟩

/-- C6, as stated, fails: the members call of D, the second stale board,
fails, and at the abort the report line of board A has already been written. -/
theorem members_failure_leaves_partial_report :
    staleBoards flakyWorld sampleGlobals [] = (.ok [boardA, boardD], [".", ".", "."]) ∧
      flakyWorld.getMembers (membersUrl sampleGlobals boardD) = .error "connection reset" ∧
      main flakyWorld sampleGlobals [] =
        (.error "connection reset",
          [".", ".", ".", "\n", ".", "https://trello.com/b/a  (zoe, alice)\n", "."]) :=
  ⟨rfl, rfl, rfl⟩

/-- C6, amended: when a remote call fails the run aborts.  If it is the boards
call or the actions call of a retained board, only progress markers have been
written.  If the first two stages completed, the abort is at the first stale
board whose members call fails, and what has been written after the line
break is the marker and report line of each stale board before that one, then
the marker of the failed call. -/
theorem failed_call_aborts (w : World) (g : Globals) (out : Stdout)
    (hfail : boardsOrActionsCallFails w g ∨ membersCallFails w g out) :
    ∃ e out2, main w g out = (.error e, out2) ∧
      (boardsOrActionsCallFails w g → ∃ k, out2 = out ++ List.replicate (k + 1) ".") ∧
      (∀ stale out1, staleBoards w g out = (.ok stale, out1) →
        ∃ pre b post, stale = pre ++ b :: post ∧
          (∀ x ∈ pre, ∃ ms, w.getMembers (membersUrl g x) = .ok ms) ∧
          w.getMembers (membersUrl g b) = .error e ∧
          out2 = out1 ++ ["\n"] ++ pre.flatMap (reportWrites w g) ++ ["."]) := by
  have hearly : boardsOrActionsCallFails w g → ∃ e out1, staleBoards w g out = (.error e, out1) := by
    intro h
    rw [staleBoards_eq]
    rcases h with ⟨e, he⟩ | ⟨boards, b, e, hboards, hb, hv, he⟩
    · rw [he]
      exact ⟨e, _, rfl⟩
    · rw [hboards]
      simp only []
      rcases staleBoardsLoop_spec w g (boards.filter visible) [] (out ++ ["."]) with
        ⟨hall, _⟩ | ⟨pre, c, post, e1, _, _, _, hrun⟩
      · obtain ⟨r, hr⟩ := hall b (List.mem_filter.mpr ⟨hb, hv⟩)
        simp [classify, he] at hr
      · exact ⟨e1, _, hrun⟩
  cases hs : staleBoards w g out with
  | mk res out1 =>
    cases res with
    | error e =>
      obtain ⟨k, hk⟩ := staleBoards_error w g out out1 e hs
      refine ⟨e, out1, by rw [main_eq, hs], fun _ => ⟨k, hk⟩, ?_⟩
      intro stale out3 h
      simp at h
    | ok stale =>
      have hm : ∃ b e, b ∈ stale ∧ w.getMembers (membersUrl g b) = .error e := by
        rcases hfail with h | ⟨stale1, out3, b, e, hrun, hb, he⟩
        · obtain ⟨e, out3, he⟩ := hearly h
          rw [hs] at he
          simp at he
        · rw [hs] at hrun
          simp only [Prod.mk.injEq, Except.ok.injEq] at hrun
          exact ⟨b, e, by rw [hrun.1]; exact hb, he⟩
      obtain ⟨b, e, hb, he⟩ := hm
      rcases printLoop_spec w g stale (out1 ++ ["\n"]) with
        ⟨hall, _⟩ | ⟨pre, c, post, e1, hsplit, hpre, hce, hrun⟩
      · obtain ⟨ms, hms⟩ := hall b hb
        rw [hms] at he
        exact Except.noConfusion he
      · refine ⟨e1, _, by rw [main_eq, hs]; exact hrun, ?_, ?_⟩
        · intro h
          obtain ⟨e2, out3, he2⟩ := hearly h
          rw [hs] at he2
          simp at he2
        · intro stale1 out3 h
          simp only [Prod.mk.injEq, Except.ok.injEq] at h
          rw [← h.1, ← h.2]
          exact ⟨pre, c, post, hsplit, hpre, hce, rfl⟩

theorem failed_call_aborts_witness :
    ∃ e out2, main flakyWorld sampleGlobals [] = (.error e, out2) ∧
      (boardsOrActionsCallFails flakyWorld sampleGlobals →
        ∃ k, out2 = [] ++ List.replicate (k + 1) ".") ∧
      (∀ stale out1, staleBoards flakyWorld sampleGlobals [] = (.ok stale, out1) →
        ∃ pre b post, stale = pre ++ b :: post ∧
          (∀ x ∈ pre, ∃ ms, flakyWorld.getMembers (membersUrl sampleGlobals x) = .ok ms) ∧
          flakyWorld.getMembers (membersUrl sampleGlobals b) = .error e ∧
          out2 = out1 ++ ["\n"] ++ pre.flatMap (reportWrites flakyWorld sampleGlobals) ++ ["."]) :=
  failed_call_aborts flakyWorld sampleGlobals []
    (Or.inr ⟨[boardA, boardD], [".", ".", "."], boardD, "connection reset", rfl, by simp, rfl⟩)

/-- C7, as stated, fails: when the boards call lists board D twice, the
reported list holds D twice and its report line is written twice. -/
theorem duplicate_board_reported_twice :
    duplicateWorld.getBoards (boardsUrl sampleGlobals) = .ok [boardD, boardD] ∧
      staleBoards duplicateWorld sampleGlobals [] = (.ok [boardD, boardD], [".", ".", "."]) ∧
      ¬ ([boardD, boardD].map fun b => b.Id).Nodup ∧
      main duplicateWorld sampleGlobals [] =
        (.ok (), [".", ".", ".", "\n", ".", "https://trello.com/b/d  (dana)\n",
          ".", "https://trello.com/b/d  (dana)\n"]) :=
  ⟨rfl, rfl, by decide, rfl⟩

/-- C7, amended: when no two entries of the list returned by the boards call
have the same identifier, no two entries of the reported list `staleBoards`
have the same identifier. -/
theorem distinct_boards_reported_once (w : World) (g : Globals) (out out1 : Stdout)
    (boards stale : List Board)
    (hboards : w.getBoards (boardsUrl g) = .ok boards)
    (hnodup : (boards.map fun b => b.Id).Nodup)
    (hrun : staleBoards w g out = (.ok stale, out1)) :
    (stale.map fun b => b.Id).Nodup := by
  obtain ⟨boards1, hb1, _, hstale, _⟩ := staleBoards_ok w g out out1 stale hrun
  rw [hboards] at hb1
  cases hb1
  rw [hstale]
  have hsub : List.Sublist ((boards.filter visible).filter (isStaleBoard w g)) boards :=
    (List.filter_sublist _).trans (List.filter_sublist _)
  exact hnodup.sublist (hsub.map _)

theorem distinct_boards_reported_once_witness :
    ([boardA, boardB, boardC, boardD, boardE, boardF].map fun b => b.Id).Nodup ∧
      ([boardA, boardD].map fun b => b.Id).Nodup :=
  ⟨by decide, distinct_boards_reported_once sampleWorld sampleGlobals [] [".", ".", ".", ".", "."]
    [boardA, boardB, boardC, boardD, boardE, boardF] [boardA, boardD] rfl (by decide) rfl⟩

/-- C8: in a run that completes, the reported boards are the boards of the
API's list that pass the visibility filter and the staleness test, in the
order of that list, and the output after the progress markers and the line
break is one marker and one report line per such board, in the same order. -/
theorem report_follows_discovery_order (w : World) (g : Globals) (out out2 : Stdout)
    (hrun : main w g out = (.ok (), out2)) :
    ∃ boards out1, w.getBoards (boardsUrl g) = .ok boards ∧
      staleBoards w g out =
        (.ok (boards.filter fun b => visible b && isStaleBoard w g b), out1) ∧
      List.Sublist (boards.filter fun b => visible b && isStaleBoard w g b) boards ∧
      (∀ b ∈ boards.filter fun b => visible b && isStaleBoard w g b,
        ∃ ms, w.getMembers (membersUrl g b) = .ok ms) ∧
      out2 = out ++ List.replicate ((boards.filter visible).length + 1) "." ++ ["\n"] ++
        (boards.filter fun b => visible b && isStaleBoard w g b).flatMap (reportWrites w g) := by
  rw [main_eq] at hrun
  cases hs : staleBoards w g out with
  | mk res out1 =>
    rw [hs] at hrun
    cases res with
    | error e => simp at hrun
    | ok stale =>
      simp only [] at hrun
      obtain ⟨boards, hboards, _, hstale, hout1⟩ := staleBoards_ok w g out out1 stale hs
      have hf : (boards.filter fun b => visible b && isStaleBoard w g b) = stale := by
        rw [hstale, List.filter_filter]
        congr 1
        funext b
        exact Bool.and_comm _ _
      rcases printLoop_spec w g stale (out1 ++ ["\n"]) with
        ⟨hall, hp⟩ | ⟨pre, c, post, e1, _, _, _, hp⟩
      · rw [hp] at hrun
        simp only [Prod.mk.injEq, true_and] at hrun
        refine ⟨boards, out1, hboards, by rw [hf], List.filter_sublist _, by rw [hf]; exact hall,
          ?_⟩
        rw [hf, ← hrun, hout1]
      · rw [hp] at hrun
        simp at hrun

theorem report_follows_discovery_order_witness :
    ∃ boards out1, sampleWorld.getBoards (boardsUrl sampleGlobals) = .ok boards ∧
      staleBoards sampleWorld sampleGlobals [] =
        (.ok (boards.filter fun b => visible b && isStaleBoard sampleWorld sampleGlobals b),
          out1) ∧
      List.Sublist
        (boards.filter fun b => visible b && isStaleBoard sampleWorld sampleGlobals b) boards ∧
      (∀ b ∈ boards.filter fun b => visible b && isStaleBoard sampleWorld sampleGlobals b,
        ∃ ms, sampleWorld.getMembers (membersUrl sampleGlobals b) = .ok ms) ∧
      [".", ".", ".", ".", ".", "\n", ".", "https://trello.com/b/a  (zoe, alice, zoe)\n", ".",
          "https://trello.com/b/d  ()\n"] =
        [] ++ List.replicate ((boards.filter visible).length + 1) "." ++ ["\n"] ++
          (boards.filter fun b => visible b && isStaleBoard sampleWorld sampleGlobals b).flatMap
            (reportWrites sampleWorld sampleGlobals) :=
  report_follows_discovery_order sampleWorld sampleGlobals []
    [".", ".", ".", ".", ".", "\n", ".", "https://trello.com/b/a  (zoe, alice, zoe)\n", ".",
      "https://trello.com/b/d  ()\n"] rfl

/-- In a run that completes, the text on standard output is the progress
markers of the first two stages, a line break, and then for each stale board,
in order, the progress marker of its members call immediately followed by the
board URL, two spaces, the usernames of its member list (in the order
returned, one per member) joined by a comma and a space in parentheses, and a
line break. -/
theorem completed_run_stdout (w : World) (g : Globals) (out2 : Stdout)
    (hrun : main w g [] = (.ok (), out2)) :
    ∃ boards, w.getBoards (boardsUrl g) = .ok boards ∧
      stdoutText out2 =
        String.join (List.replicate ((boards.filter visible).length + 1) ".") ++ "\n" ++
          String.join ((boards.filter fun b => visible b && isStaleBoard w g b).map fun b =>
            "." ++ (b.Url ++ "  (" ++
              ", ".intercalate ((membersOf w g b).map fun m => m.Username) ++ ")\n")) := by
  rw [main_eq] at hrun
  cases hs : staleBoards w g [] with
  | mk res out1 =>
    rw [hs] at hrun
    cases res with
    | error e => simp at hrun
    | ok stale =>
      simp only [] at hrun
      obtain ⟨boards, hboards, _, hstale, hout1⟩ := staleBoards_ok w g [] out1 stale hs
      have hf : (boards.filter fun b => visible b && isStaleBoard w g b) = stale := by
        rw [hstale, List.filter_filter]
        congr 1
        funext b
        exact Bool.and_comm _ _
      rcases printLoop_spec w g stale (out1 ++ ["\n"]) with
        ⟨_, hp⟩ | ⟨pre, c, post, e1, _, _, _, hp⟩
      · rw [hp] at hrun
        simp only [Prod.mk.injEq, true_and] at hrun
        refine ⟨boards, hboards, ?_⟩
        rw [hf, ← hrun, hout1]
        simp only [stdoutText, List.nil_append, join_append, join_flatMap_reportWrites]
        rfl
      · rw [hp] at hrun
        simp at hrun

/-- C9: at the organisation with the single open, org-visible board A, an
empty action history and the member list `[alice]`, the run completes and
standard output reads `..`, line break, `.https://trello.com/b/a  (alice)`,
line break.  The usernames are those of the member list, but the line of the
board starts with the progress marker of its members call, written after the
line break that line 107 calls the last one after the API call dots; the line
`https://trello.com/b/a  (alice)` that the claim describes is not a line of
the output. -/
theorem report_line_starts_with_marker :
    singleWorld.getBoards (boardsUrl sampleGlobals) = .ok [boardA] ∧
      singleWorld.getActions (actionsUrl sampleGlobals boardA) = .ok [] ∧
      singleWorld.getMembers (membersUrl sampleGlobals boardA) = .ok [⟨"alice"⟩] ∧
      main singleWorld sampleGlobals [] =
        (.ok (), [".", ".", "\n", ".", "https://trello.com/b/a  (alice)\n"]) ∧
      stdoutText (main singleWorld sampleGlobals []).2 =
        "..\n.https://trello.com/b/a  (alice)\n" ∧
      textLines (stdoutText (main singleWorld sampleGlobals []).2) =
        ["..", ".https://trello.com/b/a  (alice)"] ∧
      "https://trello.com/b/a  (alice)" ∉
        textLines (stdoutText (main singleWorld sampleGlobals []).2) :=
  ⟨rfl, rfl, rfl, rfl, rfl, rfl, by decide⟩

/-- C10: when the first action other than `makeAdminOfBoard` and
`addMemberToBoard` in a board's history has an empty date, the staleness test
returns stale, although parsing that date would panic, and the second loop
appends the board and goes on to the next one, whatever actions follow in the
history. -/
theorem empty_date_is_stale (w : World) (g : Globals) (out : Stdout) (b : Board)
    (rest acc : List Board) (pre post : List BoardAction) (a : BoardAction)
    (hact : w.getActions (actionsUrl g b) = .ok (pre ++ a :: post))
    (hpre : ∀ x ∈ pre, x.Type_ = "makeAdminOfBoard" ∨ x.Type_ = "addMemberToBoard")
    (ha : a.Type_ ≠ "makeAdminOfBoard" ∧ a.Type_ ≠ "addMemberToBoard")
    (hdate : a.Date = "") :
    isStale g (pre ++ a :: post) = .ok true ∧
      mustTimeParse a.Date = .error "Could not parse " ∧
      staleBoardsLoop w g (b :: rest) acc out =
        staleBoardsLoop w g rest (acc ++ [b]) (out ++ ["."]) := by
  have hfind : (pre ++ a :: post).find? substantive = some a := by
    have hnone : pre.find? substantive = none := by
      rw [List.find?_eq_none]
      intro x hx
      rcases hpre x hx with h1 | h1 <;> simp [substantive, h1]
    have hsub : substantive a = true := by simp [substantive, ha.1, ha.2]
    simp [List.find?_append, hnone, List.find?, hsub]
  have hs : isStale g (pre ++ a :: post) = .ok true := by
    rw [isStale_some g _ a hfind]
    simp [hdate]
  refine ⟨hs, ?_, ?_⟩
  · rw [hdate]
    rfl
  · rw [staleBoardsLoop_cons]
    simp [classify, hact, hs]

theorem empty_date_is_stale_witness :
    isStale sampleGlobals
        ([⟨"2013-07-31T08:00:00.000Z", "addMemberToBoard"⟩] ++
          ⟨"", "updateCard"⟩ :: [⟨"2013-07-30T00:00:00.000Z", "createCard"⟩]) = .ok true ∧
      mustTimeParse (BoardAction.mk "" "updateCard").Date = .error "Could not parse " ∧
      staleBoardsLoop undatedWorld sampleGlobals [boardD, boardB] [] ["."] =
        staleBoardsLoop undatedWorld sampleGlobals [boardB] ([] ++ [boardD]) (["."] ++ ["."]) :=
  empty_date_is_stale undatedWorld sampleGlobals ["."] boardD [boardB] []
    [⟨"2013-07-31T08:00:00.000Z", "addMemberToBoard"⟩]
    [⟨"2013-07-30T00:00:00.000Z", "createCard"⟩] ⟨"", "updateCard"⟩ rfl
    (by intro x hx; simp at hx; subst hx; exact Or.inr rfl) (by decide) rfl

end TidyTrello
